import Mathlib

/-!
Shallow embedding of the resume-screening core
(`src/resume_parser.py` and `src/skill_matcher.py`).

Strings are modelled as Lean `String`s; Python `str.lower()` is modelled by
mapping `Char.toLower` (the inputs of interest are ASCII), `str.title()` by
`titleAux`, and `needle in hay` (substring test) by `containsSub`.
Python floats are modelled exactly as rationals; `round(x, 2)` is modelled by
`round2` (round half towards the larger value at ties, which agrees with the
Python results on every value arising in the claims).
-/

namespace ResumeScreening

/-- Characters of `s` with Python `str.lower()` applied (ASCII model). -/
def lowerData (s : String) : List Char :=
  s.data.map Char.toLower

/-- Python `s.lower()` as a `String`. -/
def strLower (s : String) : String :=
  ⟨lowerData s⟩

/-- `isPrefOf n h` : the char list `n` is a prefix of `h`. -/
def isPrefOf : List Char → List Char → Bool
  | [], _ => true
  | _ :: _, [] => false
  | a :: as, b :: bs => a == b && isPrefOf as bs

/-- Python `needle in hay` for strings: substring containment. -/
def containsSub (needle : List Char) : List Char → Bool
  | [] => isPrefOf needle []
  | c :: t => isPrefOf needle (c :: t) || containsSub needle t

/-- Helper for Python `str.title()`: the Bool records whether the previous
character was alphabetic. -/
def titleAux : Bool → List Char → List Char
  | _, [] => []
  | prevAlpha, c :: t =>
    (if c.isAlpha then (if prevAlpha then c.toLower else c.toUpper) else c)
      :: titleAux c.isAlpha t

/-- Python `str.title()` (ASCII model). -/
def pyTitle (s : String) : String :=
  ⟨titleAux false s.data⟩

/-- Python regex `\s` character class. -/
def pyIsSpace (c : Char) : Bool :=
  c == ' ' || c == '\t' || c == '\n' || c == '\r' || c == '\x0b' || c == '\x0c'

/-- Numeric value of a digit run, as Python `int` on a digit string. -/
def digitVal (cs : List Char) : ℕ :=
  cs.foldl (fun a c => 10 * a + (c.toNat - 48)) 0

/-- Python `round(q, 2)`. -/
def round2 (q : ℚ) : ℚ :=
  ((round (100 * q) : ℤ) : ℚ) / 100

/-! ### `resume_parser.py` : `ResumeParser` -/

/-- The fixed skill list of `ResumeParser.extract_skills` (`common_skills`). -/
def common_skills : List String :=
  ["python", "java", "javascript", "html", "css", "sql", "mongodb", "mysql",
   "react", "angular", "vue", "node.js", "django", "flask", "spring",
   "machine learning", "ai", "artificial intelligence", "data analysis",
   "excel", "powerbi", "tableau", "aws", "azure", "docker", "kubernetes",
   "git", "agile", "scrum", "project management", "leadership"]

/-- `ResumeParser.extract_skills`: title-cased hits of `common_skills`
found by substring containment in the lowercased text. -/
def extract_skills (text : String) : List String :=
  (common_skills.filter (fun skill => containsSub skill.data (lowerData text))).map pyTitle

/-- One element of an experience regex: literal text, an optional single
character (`+?`, `s?`, `f?`), `\s*`, or the `(\d+)` capture group. -/
inductive PatElem where
  | lit : List Char → PatElem
  | optChar : Char → PatElem
  | ws : PatElem
  | digits : PatElem

/-- Deterministic matcher for a pattern at the start of `cs`, returning the
digit capture on success.  Greedy maximal-munch is equivalent to the
backtracking of the Python engine here because in each pattern the element after a
`(\d+)`, `\s*` or optional character can never consume the characters the
greedy step took (digits are not `+`/space/`y`, spaces are not `y`/`o`/`i`,
and skipping a present `s`/`f`/`+` makes the following literal fail). -/
def matchAt : List PatElem → List Char → Option (List Char)
  | [], _ => some []
  | PatElem.lit l :: rest, cs =>
    if isPrefOf l cs then matchAt rest (cs.drop l.length) else none
  | PatElem.optChar c :: rest, cs =>
    match cs with
    | [] => matchAt rest []
    | d :: t => if d == c then matchAt rest t else matchAt rest (d :: t)
  | PatElem.ws :: rest, cs => matchAt rest (cs.dropWhile pyIsSpace)
  | PatElem.digits :: rest, cs =>
    let run := cs.takeWhile Char.isDigit
    if run.isEmpty then none
    else (matchAt rest (cs.drop run.length)).map (fun _ => run)

/-- Python `re.search`: try the pattern at each position, leftmost first. -/
def searchPat (p : List PatElem) : List Char → Option (List Char)
  | [] => matchAt p []
  | c :: t =>
    match matchAt p (c :: t) with
    | some r => some r
    | none => searchPat p t

/-- Regex `(\d+)\+?\s*years?\s*of?\s*experience`. -/
def pat1 : List PatElem :=
  [PatElem.digits, PatElem.optChar '+', PatElem.ws, PatElem.lit "year".data,
   PatElem.optChar 's', PatElem.ws, PatElem.lit "o".data, PatElem.optChar 'f',
   PatElem.ws, PatElem.lit "experience".data]

/-- Regex `experience:\s*(\d+)\+?\s*years?`. -/
def pat2 : List PatElem :=
  [PatElem.lit "experience:".data, PatElem.ws, PatElem.digits, PatElem.optChar '+',
   PatElem.ws, PatElem.lit "year".data, PatElem.optChar 's']

/-- Regex `(\d+)\+?\s*years?\s*in\s*the\s*field`. -/
def pat3 : List PatElem :=
  [PatElem.digits, PatElem.optChar '+', PatElem.ws, PatElem.lit "year".data,
   PatElem.optChar 's', PatElem.ws, PatElem.lit "in".data, PatElem.ws,
   PatElem.lit "the".data, PatElem.ws, PatElem.lit "field".data]

/-- `experience_patterns`, in source order. -/
def experience_patterns : List (List PatElem) :=
  [pat1, pat2, pat3]

/-- The parser loop over `experience_patterns`: first pattern whose search
succeeds wins. -/
def firstMatch : List (List PatElem) → List Char → Option (List Char)
  | [], _ => none
  | p :: ps, cs =>
    match searchPat p cs with
    | some r => some r
    | none => firstMatch ps cs

/-- `ResumeParser.extract_experience`: the captured digit substring of the
first matching pattern, suffixed with `" years"`, else the fixed fallback. -/
def extract_experience (text : String) : String :=
  match firstMatch experience_patterns (lowerData text) with
  | some cap => ⟨cap ++ (" years").data⟩
  | none => "Experience not specified"

/-! ### `skill_matcher.py` : `SkillMatcher` -/

/-- `SkillMatcher.skill_categories`, in source (dict insertion) order. -/
def skill_categories : List (String × List String) :=
  [("programming_languages",
    ["python", "java", "javascript", "c++", "c#", "php", "ruby", "go", "rust", "swift",
     "kotlin", "scala", "r", "matlab", "perl", "shell", "bash", "powershell"]),
   ("web_technologies",
    ["html", "css", "react", "angular", "vue", "node.js", "express", "django", "flask",
     "spring", "laravel", "asp.net", "jsp", "servlets", "jquery", "bootstrap", "sass"]),
   ("databases",
    ["sql", "mysql", "postgresql", "mongodb", "oracle", "sql server", "sqlite", "redis",
     "cassandra", "dynamodb", "firebase", "elasticsearch", "neo4j"]),
   ("cloud_platforms",
    ["aws", "azure", "google cloud", "gcp", "heroku", "digitalocean", "linode", "vultr"]),
   ("devops_tools",
    ["docker", "kubernetes", "jenkins", "git", "github", "gitlab", "bitbucket", "jira",
     "confluence", "terraform", "ansible", "chef", "puppet"]),
   ("ai_ml_tools",
    ["machine learning", "ai", "artificial intelligence", "tensorflow", "pytorch",
     "scikit-learn", "keras", "opencv", "nltk", "spacy", "pandas", "numpy",
     "matplotlib", "seaborn"]),
   ("data_analysis",
    ["data analysis", "data visualization", "excel", "powerbi", "tableau", "qlik",
     "looker", "apache spark", "hadoop", "kafka", "airflow", "dbt"]),
   ("soft_skills",
    ["leadership", "communication", "teamwork", "problem solving", "critical thinking",
     "project management", "agile", "scrum", "kanban", "customer service", "sales"])]

/-- `SkillMatcher.all_skills`: the flattened union across all categories. -/
def all_skills : List String :=
  (skill_categories.map Prod.snd).flatten

/-- The fallback `basic_skills` list in `extract_job_skills`. -/
def basic_skills : List String :=
  ["python", "java", "javascript", "html", "css", "sql", "react", "node.js"]

/-- The taxonomy pass of `extract_job_skills`: per category, the title-cased
skills contained in the lowercased job text, keeping only non-empty
categories, in source order. -/
def taxonomyFound (job_description : String) : List (String × List String) :=
  let job_lower := lowerData job_description
  (skill_categories.map
    (fun p => (p.1, (p.2.filter (fun s => containsSub s.data job_lower)).map pyTitle))).filter
    (fun p => !p.2.isEmpty)

/-- `SkillMatcher.extract_job_skills`, including the `general_skills`
fallback pass. -/
def extract_job_skills (job_description : String) : List (String × List String) :=
  let found := taxonomyFound job_description
  if found.isEmpty then
    let job_lower := lowerData job_description
    let basic_found := (basic_skills.filter (fun s => containsSub s.data job_lower)).map pyTitle
    if basic_found.isEmpty then [] else [("general_skills", basic_found)]
  else found

/-- `SkillMatcher.calculate_skill_match_score`. -/
def calculate_skill_match_score (resume_skills job_skills : List String) : ℚ :=
  if job_skills.isEmpty then 0
  else if resume_skills.isEmpty then 0
  else
    let resume_lower := resume_skills.map strLower
    let job_lower := job_skills.map strLower
    let nMatches : ℕ := (job_lower.filter (fun s => resume_lower.contains s)).length
    let match_percentage : ℚ := ((nMatches : ℚ) / (job_lower.length : ℚ)) * 100
    let skill_count_bonus : ℚ := min 5 ((resume_skills.length : ℚ) * (1 / 2))
    let coverage_bonus : ℚ := min 10 (((nMatches : ℚ) / (job_lower.length : ℚ)) * 20)
    round2 (min 100 (match_percentage + skill_count_bonus + coverage_bonus))

/-- First digit run of the text, as a Python regex search for one or more
digits. -/
def firstNumber : List Char → Option (List Char)
  | [] => none
  | c :: t => if c.isDigit then some ((c :: t).takeWhile Char.isDigit) else firstNumber t

/-- The experience-bonus block of `calculate_overall_score`: guarded by
the substring test for `years` on the lowercased text, then `int` of the
first digit run, then the threshold table (the bare except branch yields
0). -/
def experienceBonus (experience_text : String) : ℕ :=
  if containsSub ("years").data (lowerData experience_text) then
    match firstNumber experience_text.data with
    | some run =>
      let years := digitVal run
      if 8 ≤ years then 15
      else if 5 ≤ years then 12
      else if 3 ≤ years then 8
      else if 1 ≤ years then 5
      else 0
    | none => 0
  else 0

/-- `any(degree in edu.lower() for degree in needles)`. -/
def containsAnyOf (edu : String) (needles : List String) : Bool :=
  needles.any (fun n => containsSub n.data (lowerData edu))

/-- The education-bonus loop of `calculate_overall_score`: each `elif`
branch sets the bonus and breaks, so the first line containing any keyword
decides, with the in-line priority phd > master > bachelor > diploma. -/
def educationBonus : List String → ℕ
  | [] => 0
  | edu :: rest =>
    if containsAnyOf edu ["phd", "doctorate"] then 10
    else if containsAnyOf edu ["master", "mba", "ms"] then 7
    else if containsAnyOf edu ["bachelor", "b.tech", "b.e", "bs"] then 4
    else if containsAnyOf edu ["diploma", "associate"] then 2
    else educationBonus rest

/-- The skills-diversity count: how many taxonomy categories have at least
one skill whose lowercase form is an element of the lowercased resume
skill list (list membership, not substring). -/
def categoriesCovered (resume_skills : List String) : ℕ :=
  (skill_categories.filter
    (fun p => p.2.any (fun skill => (resume_skills.map strLower).contains (strLower skill)))).length

/-- A parsed-resume record as handed to `SkillMatcher`; `error` is `some`
when the Python dict carries an `error` key. -/
structure ResumeData where
  filename : String
  error : Option String
  skills : List String
  experience : String
  education : List String
deriving DecidableEq

/-- The score dict returned by `calculate_overall_score`. -/
structure ScoreData where
  overall_score : ℚ
  skill_score : ℚ
  experience_bonus : ℕ
  education_bonus : ℕ
  skills_diversity_bonus : ℕ
  category_scores : List (String × ℚ)
deriving DecidableEq

/-- `SkillMatcher.calculate_overall_score`. -/
def calculate_overall_score (resume_data : ResumeData)
    (job_skills : List (String × List String)) : ScoreData :=
  let resume_skills := resume_data.skills
  let nonempty := job_skills.filter (fun p => !p.2.isEmpty)
  let category_scores := nonempty.map
    (fun p => (p.1, calculate_skill_match_score resume_skills p.2))
  let total_score : ℚ := (category_scores.map Prod.snd).sum
  let category_count := category_scores.length
  let skill_score : ℚ :=
    if 0 < category_count then round2 (total_score / (category_count : ℚ)) else 0
  let experience_bonus := experienceBonus resume_data.experience
  let education_bonus := educationBonus resume_data.education
  let skills_diversity_bonus :=
    if resume_skills.isEmpty then 0 else min 10 (categoriesCovered resume_skills * 2)
  { overall_score :=
      min 100 (skill_score + (experience_bonus : ℚ) + (education_bonus : ℚ)
        + (skills_diversity_bonus : ℚ)),
    skill_score := skill_score,
    experience_bonus := experience_bonus,
    education_bonus := education_bonus,
    skills_diversity_bonus := skills_diversity_bonus,
    category_scores := category_scores }

/-- One entry of the list returned by `rank_candidates`. -/
structure Candidate where
  resume_data : ResumeData
  score_data : ScoreData
  rank : ℕ
deriving DecidableEq

/-- The descending-by-score order used by `ranked_candidates.sort(...,
reverse=True)`; with `List.insertionSort` this reproduces the stability of
the Python sort (equal scores keep input order). -/
def candGE (a b : Candidate) : Prop :=
  b.score_data.overall_score ≤ a.score_data.overall_score

instance : DecidableRel candGE :=
  fun a b =>
    inferInstanceAs (Decidable (b.score_data.overall_score ≤ a.score_data.overall_score))

instance : IsTotal Candidate candGE :=
  ⟨fun a b => le_total b.score_data.overall_score a.score_data.overall_score⟩

instance : IsTrans Candidate candGE :=
  ⟨fun _ _ _ hab hbc => le_trans hbc hab⟩

/-- The rank-assignment loop: each candidate gets rank `i + 1` after the
sort. -/
def assignRanks : List Candidate → ℕ → List Candidate
  | [], _ => []
  | c :: t, i => { c with rank := i } :: assignRanks t (i + 1)

/-- `SkillMatcher.rank_candidates`: skip error records, score the rest,
sort by overall score descending (stable), assign ranks 1, 2, …. -/
def rank_candidates (resumes_data : List ResumeData) (job_description : String) :
    List Candidate :=
  let job_skills := extract_job_skills job_description
  let cands := (resumes_data.filter (fun r => r.error.isNone)).map
    (fun r => { resume_data := r, score_data := calculate_overall_score r job_skills,
                rank := 0 : Candidate })
  assignRanks (List.insertionSort candGE cands) 1

/-! ### Spec-side views used to state the claims -/

/-- The match count of the per-category formula of the spec: the number of
skills in `J` present case-insensitively in `R`. -/
def specMatchCount (resume_skills job_skills : List String) : ℕ :=
  ((job_skills.map strLower).filter
    (fun s => (resume_skills.map strLower).contains s)).length

/-- The per-category score formula of the spec (section 4.4), transcribed
from its words, to be compared with `calculate_skill_match_score`. -/
def specCategoryScore (resume_skills job_skills : List String) : ℚ :=
  let m : ℚ := (specMatchCount resume_skills job_skills : ℚ)
  let j : ℚ := (job_skills.length : ℚ)
  round2 (min 100 (100 * m / j
    + min 5 ((1 / 2) * (resume_skills.length : ℚ))
    + min 10 (20 * m / j)))

/-- The union of the four degree-keyword groups of the education bonus. -/
def degreeKeywords : List String :=
  ["phd", "doctorate", "master", "mba", "ms", "bachelor", "b.tech", "b.e", "bs",
   "diploma", "associate"]

/-- A line contains some degree keyword. -/
def lineHasDegreeKeyword (edu : String) : Bool :=
  containsAnyOf edu degreeKeywords

/-- The bonus a single education line yields, by the in-line priority
phd/doctorate > master/mba/ms > bachelor/b.tech/b.e/bs > diploma/associate. -/
def lineDegreeBonus (edu : String) : ℕ :=
  if containsAnyOf edu ["phd", "doctorate"] then 10
  else if containsAnyOf edu ["master", "mba", "ms"] then 7
  else if containsAnyOf edu ["bachelor", "b.tech", "b.e", "bs"] then 4
  else if containsAnyOf edu ["diploma", "associate"] then 2
  else 0

/-! ### Shared lemmas -/

theorem round_q_mono {a b : ℚ} (h : a ≤ b) : round a ≤ round b := by
  rw [round_eq, round_eq]
  exact Int.floor_mono (by linarith)

theorem round2_mono {a b : ℚ} (h : a ≤ b) : round2 a ≤ round2 b := by
  unfold round2
  have h2 : (round (100 * a) : ℤ) ≤ round (100 * b) := round_q_mono (by linarith)
  have h3 : ((round (100 * a) : ℤ) : ℚ) ≤ ((round (100 * b) : ℤ) : ℚ) := by exact_mod_cast h2
  linarith

theorem round2_nonneg {a : ℚ} (h : 0 ≤ a) : 0 ≤ round2 a := by
  have h1 : round2 0 ≤ round2 a := round2_mono h
  have h2 : round2 0 = 0 := by norm_num [round2, round_eq]
  linarith

theorem round2_le_hundred {a : ℚ} (h : a ≤ 100) : round2 a ≤ 100 := by
  have h1 : round2 a ≤ round2 100 := round2_mono h
  have h2 : round2 (100 : ℚ) = 100 := by norm_num [round2, round_eq]
  linarith

theorem length_filter_mono {α : Type} (l : List α) (p q : α → Bool)
    (h : ∀ a, p a = true → q a = true) :
    (l.filter p).length ≤ (l.filter q).length := by
  induction l with
  | nil => simp
  | cons a t ih =>
    by_cases hp : p a = true
    · simpa [List.filter_cons, hp, h a hp] using ih
    · by_cases hq : q a = true
      · simp only [List.filter_cons, hp, hq, if_false, if_true, List.length_cons]
        exact le_trans ih (Nat.le_succ _)
      · simpa [List.filter_cons, hp, hq] using ih

theorem contains_mono_append {l : List String} (x : String) {a : String}
    (h : l.contains a = true) : (l ++ [x]).contains a = true := by
  have h2 : a ∈ l := by simpa using h
  have h3 : a ∈ l ++ [x] := List.mem_append_left _ h2
  simpa using h3

theorem calculate_skill_match_score_nonneg (R J : List String) :
    0 ≤ calculate_skill_match_score R J := by
  unfold calculate_skill_match_score
  split
  · norm_num
  · split
    · norm_num
    · apply round2_nonneg
      refine le_min (by norm_num) ?_
      have t1 : (0 : ℚ) ≤
          (((((J.map strLower).filter
            (fun s => (R.map strLower).contains s)).length : ℕ) : ℚ)
            / ((J.map strLower).length : ℚ)) * 100 := by positivity
      have t2 : (0 : ℚ) ≤ min 5 ((R.length : ℚ) * (1 / 2)) :=
        le_min (by norm_num) (by positivity)
      have t3 : (0 : ℚ) ≤ min 10
          ((((((J.map strLower).filter
            (fun s => (R.map strLower).contains s)).length : ℕ) : ℚ)
            / ((J.map strLower).length : ℚ)) * 20) :=
        le_min (by norm_num) (by positivity)
      linarith

theorem calculate_skill_match_score_le_hundred (R J : List String) :
    calculate_skill_match_score R J ≤ 100 := by
  unfold calculate_skill_match_score
  split
  · norm_num
  · split
    · norm_num
    · exact round2_le_hundred (min_le_left _ _)

theorem calc_cons_eq (r j : String) (rs js : List String) :
    calculate_skill_match_score (r :: rs) (j :: js) =
      round2 (min 100
        (((specMatchCount (r :: rs) (j :: js) : ℚ) / (((j :: js).length : ℕ) : ℚ)) * 100
          + min 5 ((((r :: rs).length : ℕ) : ℚ) * (1 / 2))
          + min 10 (((specMatchCount (r :: rs) (j :: js) : ℚ)
              / (((j :: js).length : ℕ) : ℚ)) * 20))) := by
  simp only [calculate_skill_match_score, specMatchCount, List.isEmpty_cons,
    Bool.false_eq_true, if_false, List.length_map]

theorem example3_eval :
    calculate_skill_match_score ["Python", "React"] ["Python", "React", "Aws"]
      = 7767 / 100 := by
  rw [calc_cons_eq]
  have hc : specMatchCount ["Python", "React"] ["Python", "React", "Aws"] = 2 := by decide
  rw [hc]
  norm_num [min_def]
  unfold round2
  rw [round_eq]
  norm_num

/-! ### Claims C1, C2, C3, C9 -/

/-- Claim C1 fails on the code: `rust` is a canonical phrase of the full
flattened taxonomy list and is contained in the text `"rust developer"`,
yet the skill extraction of the parser does not report it, because
`ResumeParser.extract_skills` only tests its own `common_skills` list. -/
theorem claim_C1_counterexample :
    "rust" ∈ all_skills
    ∧ containsSub ("rust").data (lowerData "rust developer") = true
    ∧ "Rust" ∉ extract_skills "rust developer" := by
  decide

/-- Claim C1 (amended): for every raw resume text, skill extraction tests
every phrase of the fixed `common_skills` list of the parser (a strict subset of
the flattened taxonomy) for case-insensitive substring containment; every
such phrase contained in the text appears title-cased in the result, every
result element arises this way, and the result has no duplicates. -/
theorem claim_C1 (text : String) :
    (∀ s ∈ common_skills, containsSub s.data (lowerData text) = true →
      pyTitle s ∈ extract_skills text)
    ∧ (∀ x ∈ extract_skills text, ∃ s ∈ common_skills,
        containsSub s.data (lowerData text) = true ∧ x = pyTitle s)
    ∧ (extract_skills text).Nodup := by
  refine ⟨?_, ?_, ?_⟩
  · intro s hs hc
    exact List.mem_map_of_mem _ (List.mem_filter.2 ⟨hs, hc⟩)
  · intro x hx
    rcases List.mem_map.1 hx with ⟨s, hs, rfl⟩
    rcases List.mem_filter.1 hs with ⟨h1, h2⟩
    exact ⟨s, h1, h2, rfl⟩
  · have h1 : (common_skills.map pyTitle).Nodup := by decide
    exact h1.sublist ((List.filter_sublist _).map pyTitle)

/-- Witness for claim C1 at a concrete input. -/
theorem claim_C1_witness :
    "Python" ∈ extract_skills "python developer" :=
  (claim_C1 "python developer").1 "python" (by decide) (by decide)

/-- Claim C2 fails on the code: on the given job text the single-letter
taxonomy phrase `r` also matches (it is a substring of "react" and
"experience"), so `programming_languages` gets `["Python", "R"]`, not
`["Python"]`. -/
theorem claim_C2_counterexample :
    ("programming_languages", ["Python", "R"]) ∈
      extract_job_skills "We need Python, React, and AWS experience"
    ∧ extract_job_skills "We need Python, React, and AWS experience"
      ≠ [("programming_languages", ["Python"]),
         ("web_technologies", ["React"]),
         ("cloud_platforms", ["Aws"])] := by
  decide

/-- Claim C2 (amended): on the job text
`"We need Python, React, and AWS experience"`, `extract_job_skills` returns
exactly the map sending `programming_languages` to `["Python", "R"]`,
`web_technologies` to `["React"]` and `cloud_platforms` to `["Aws"]`; the
extra `"R"` comes from the substring false positive of the canonical
phrase `r`. -/
theorem claim_C2 :
    extract_job_skills "We need Python, React, and AWS experience"
      = [("programming_languages", ["Python", "R"]),
         ("web_technologies", ["React"]),
         ("cloud_platforms", ["Aws"])] := by
  decide

/-- Claim C3 fails on the code at its own example: the coverage bonus is
`min(10, 13.33) = 10`, so the category score is `77.67`, not `81.0`. -/
theorem claim_C3_counterexample :
    calculate_skill_match_score ["Python", "React"] ["Python", "React", "Aws"]
      = 7767 / 100
    ∧ (7767 / 100 : ℚ) ≠ 81 :=
  ⟨example3_eval, by norm_num⟩

/-- Claim C3 (amended): for non-empty `J` and `R` the category score equals
`min(100, 100*matches/|J| + min(5, 0.5*|R|) + min(10, 20*matches/|J|))`
rounded to two decimals; empty `J` or empty `R` scores `0`; and the example
`["Python","React"]` against `["Python","React","Aws"]` scores `77.67`. -/
theorem claim_C3 :
    (∀ R J : List String, J ≠ [] → R ≠ [] →
      calculate_skill_match_score R J = specCategoryScore R J)
    ∧ (∀ R : List String, calculate_skill_match_score R [] = 0)
    ∧ (∀ J : List String, calculate_skill_match_score [] J = 0)
    ∧ calculate_skill_match_score ["Python", "React"] ["Python", "React", "Aws"]
        = 7767 / 100 := by
  refine ⟨?_, ?_, ?_, example3_eval⟩
  · intro R J hJ hR
    cases J with
    | nil => exact absurd rfl hJ
    | cons j js =>
      cases R with
      | nil => exact absurd rfl hR
      | cons r rs =>
        rw [calc_cons_eq]
        simp only [specCategoryScore]
        ring_nf
  · intro R
    rfl
  · intro J
    cases J with
    | nil => rfl
    | cons j js => simp [calculate_skill_match_score]

/-- Witness for claim C3 at a concrete input. -/
theorem claim_C3_witness :
    calculate_skill_match_score ["Python"] ["Python", "Aws"]
      = specCategoryScore ["Python"] ["Python", "Aws"] :=
  claim_C3.1 ["Python"] ["Python", "Aws"] (by decide) (by decide)

/-- Claim C9: appending a required skill `s ∈ J` that is not yet in `R` to
the resume skill list never decreases the per-category match score. -/
theorem claim_C9 (R J : List String) (s : String)
    (hJ : J ≠ []) (hsJ : s ∈ J) (hsR : s ∉ R) :
    calculate_skill_match_score R J ≤ calculate_skill_match_score (R ++ [s]) J := by
  cases J with
  | nil => exact absurd rfl hJ
  | cons j js =>
    cases R with
    | nil =>
      have h0 : calculate_skill_match_score [] (j :: js) = 0 := by
        simp [calculate_skill_match_score]
      rw [h0]
      exact calculate_skill_match_score_nonneg _ _
    | cons r rs =>
      have hm : specMatchCount (r :: rs) (j :: js)
          ≤ specMatchCount (r :: (rs ++ [s])) (j :: js) := by
        unfold specMatchCount
        apply length_filter_mono
        intro a ha
        have he : (r :: (rs ++ [s])).map strLower
            = ((r :: rs).map strLower) ++ [strLower s] := by simp
        rw [he]
        exact contains_mono_append _ ha
      have hcons : (r :: rs) ++ [s] = r :: (rs ++ [s]) := rfl
      rw [hcons, calc_cons_eq, calc_cons_eq]
      apply round2_mono
      have hmq : ((specMatchCount (r :: rs) (j :: js) : ℕ) : ℚ)
          ≤ ((specMatchCount (r :: (rs ++ [s])) (j :: js) : ℕ) : ℚ) := by
        exact_mod_cast hm
      have hlq : (((r :: rs).length : ℕ) : ℚ) ≤ (((r :: (rs ++ [s])).length : ℕ) : ℚ) := by
        have : (r :: rs).length ≤ (r :: (rs ++ [s])).length := by simp
        exact_mod_cast this
      gcongr

/-! ### Claim C5 -/

theorem overall_skill_score_bounds (rd : ResumeData) (js : List (String × List String)) :
    0 ≤ (calculate_overall_score rd js).skill_score
    ∧ (calculate_overall_score rd js).skill_score ≤ 100 := by
  have hb : ∀ x ∈ ((js.filter (fun p => !p.2.isEmpty)).map
      (fun p => (p.1, calculate_skill_match_score rd.skills p.2))).map Prod.snd,
      0 ≤ x ∧ x ≤ 100 := by
    intro x hx
    rcases List.mem_map.1 hx with ⟨q, hq, rfl⟩
    rcases List.mem_map.1 hq with ⟨p, hp, rfl⟩
    exact ⟨calculate_skill_match_score_nonneg _ _, calculate_skill_match_score_le_hundred _ _⟩
  have hsum0 : 0 ≤ (((js.filter (fun p => !p.2.isEmpty)).map
      (fun p => (p.1, calculate_skill_match_score rd.skills p.2))).map Prod.snd).sum :=
    List.sum_nonneg (fun x hx => (hb x hx).1)
  have hsum100 : (((js.filter (fun p => !p.2.isEmpty)).map
      (fun p => (p.1, calculate_skill_match_score rd.skills p.2))).map Prod.snd).sum
      ≤ (((js.filter (fun p => !p.2.isEmpty)).map
        (fun p => (p.1, calculate_skill_match_score rd.skills p.2))).length : ℚ) * 100 := by
    have h := List.sum_le_card_nsmul (((js.filter (fun p => !p.2.isEmpty)).map
      (fun p => (p.1, calculate_skill_match_score rd.skills p.2))).map Prod.snd) 100
      (fun x hx => (hb x hx).2)
    simpa [nsmul_eq_mul, List.length_map] using h
  simp only [calculate_overall_score]
  constructor
  · split
    · apply round2_nonneg
      apply div_nonneg hsum0
      positivity
    · norm_num
  · split
    · apply round2_le_hundred
      rw [div_le_iff₀ (by exact_mod_cast (by assumption : 0 < ((js.filter
        (fun p => !p.2.isEmpty)).map
        (fun p => (p.1, calculate_skill_match_score rd.skills p.2))).length))]
      linarith
    · norm_num

/-- Claim C5: for every resume record and job-requirements map, the skill
score lies in `[0, 100]`, the overall score equals
`min(100, skill_score + experience_bonus + education_bonus +
skills_diversity_bonus)`, and the overall score lies in `[0, 100]` no
matter how large the bonus sum is. -/
theorem claim_C5 (rd : ResumeData) (js : List (String × List String)) :
    (0 ≤ (calculate_overall_score rd js).skill_score
      ∧ (calculate_overall_score rd js).skill_score ≤ 100)
    ∧ (calculate_overall_score rd js).overall_score
        = min 100 ((calculate_overall_score rd js).skill_score
            + ((calculate_overall_score rd js).experience_bonus : ℚ)
            + ((calculate_overall_score rd js).education_bonus : ℚ)
            + ((calculate_overall_score rd js).skills_diversity_bonus : ℚ))
    ∧ (0 ≤ (calculate_overall_score rd js).overall_score
      ∧ (calculate_overall_score rd js).overall_score ≤ 100) := by
  have hsk := overall_skill_score_bounds rd js
  have heq : (calculate_overall_score rd js).overall_score
      = min 100 ((calculate_overall_score rd js).skill_score
          + ((calculate_overall_score rd js).experience_bonus : ℚ)
          + ((calculate_overall_score rd js).education_bonus : ℚ)
          + ((calculate_overall_score rd js).skills_diversity_bonus : ℚ)) := rfl
  refine ⟨hsk, heq, ?_, ?_⟩
  · rw [heq]
    refine le_min (by norm_num) ?_
    have c1 : (0 : ℚ) ≤ ((calculate_overall_score rd js).experience_bonus : ℚ) :=
      Nat.cast_nonneg _
    have c2 : (0 : ℚ) ≤ ((calculate_overall_score rd js).education_bonus : ℚ) :=
      Nat.cast_nonneg _
    have c3 : (0 : ℚ) ≤ ((calculate_overall_score rd js).skills_diversity_bonus : ℚ) :=
      Nat.cast_nonneg _
    linarith [hsk.1]
  · rw [heq]
    exact min_le_left _ _

/-! ### Claim C7 -/

theorem lineHasDegreeKeyword_eq (e : String) :
    lineHasDegreeKeyword e =
      (containsAnyOf e ["phd", "doctorate"] || containsAnyOf e ["master", "mba", "ms"]
        || containsAnyOf e ["bachelor", "b.tech", "b.e", "bs"]
        || containsAnyOf e ["diploma", "associate"]) := by
  simp [lineHasDegreeKeyword, containsAnyOf, degreeKeywords, Bool.or_assoc]

theorem educationBonus_skip {e : String} (h : lineHasDegreeKeyword e = false)
    (rest : List String) : educationBonus (e :: rest) = educationBonus rest := by
  rw [lineHasDegreeKeyword_eq] at h
  simp only [Bool.or_eq_false_iff] at h
  obtain ⟨⟨⟨h1, h2⟩, h3⟩, h4⟩ := h
  simp [educationBonus, h1, h2, h3, h4]

theorem educationBonus_hit {e : String} (h : lineHasDegreeKeyword e = true)
    (rest : List String) : educationBonus (e :: rest) = lineDegreeBonus e := by
  by_cases c1 : containsAnyOf e ["phd", "doctorate"] = true
  · simp [educationBonus, lineDegreeBonus, c1]
  · have d1 : containsAnyOf e ["phd", "doctorate"] = false := Bool.eq_false_iff.mpr c1
    by_cases c2 : containsAnyOf e ["master", "mba", "ms"] = true
    · simp [educationBonus, lineDegreeBonus, d1, c2]
    · have d2 : containsAnyOf e ["master", "mba", "ms"] = false := Bool.eq_false_iff.mpr c2
      by_cases c3 : containsAnyOf e ["bachelor", "b.tech", "b.e", "bs"] = true
      · simp [educationBonus, lineDegreeBonus, d1, d2, c3]
      · have d3 : containsAnyOf e ["bachelor", "b.tech", "b.e", "bs"] = false :=
          Bool.eq_false_iff.mpr c3
        by_cases c4 : containsAnyOf e ["diploma", "associate"] = true
        · simp [educationBonus, lineDegreeBonus, d1, d2, d3, c4]
        · have d4 : containsAnyOf e ["diploma", "associate"] = false :=
            Bool.eq_false_iff.mpr c4
          rw [lineHasDegreeKeyword_eq, d1, d2, d3, d4] at h
          simp at h

/-- Claim C7: the education bonus is decided by the first education line
containing any degree keyword, scanning stops there (phd/doctorate 10,
master/mba/ms 7, bachelor/b.tech/b.e/bs 4, diploma/associate 2, priority in
that order within the line), it is 0 when no line has a keyword, and the
list `["bachelor", "phd"]` yields 4, not 10. -/
theorem claim_C7 :
    (∀ pre edu post, (∀ l ∈ pre, lineHasDegreeKeyword l = false) →
        lineHasDegreeKeyword edu = true →
        educationBonus (pre ++ edu :: post) = lineDegreeBonus edu)
    ∧ (∀ lines : List String, (∀ l ∈ lines, lineHasDegreeKeyword l = false) →
        educationBonus lines = 0)
    ∧ (lineDegreeBonus "phd" = 10 ∧ lineDegreeBonus "master" = 7
        ∧ lineDegreeBonus "bachelor" = 4 ∧ lineDegreeBonus "diploma" = 2)
    ∧ educationBonus ["bachelor", "phd"] = 4 := by
  refine ⟨?_, ?_, by decide, by decide⟩
  · intro pre edu post hpre hedu
    induction pre with
    | nil => simpa using educationBonus_hit hedu post
    | cons a t ih =>
      have ha := hpre a (by simp)
      have ht : ∀ l ∈ t, lineHasDegreeKeyword l = false := fun l hl => hpre l (by simp [hl])
      rw [List.cons_append, educationBonus_skip ha]
      exact ih ht
  · intro lines h
    induction lines with
    | nil => rfl
    | cons a t ih =>
      rw [educationBonus_skip (h a (by simp)) t]
      exact ih (fun l hl => h l (by simp [hl]))

/-- Witness for claim C7 at a concrete input. -/
theorem claim_C7_witness :
    educationBonus ([] ++ "bachelor" :: ["phd"]) = lineDegreeBonus "bachelor" :=
  claim_C7.1 [] "bachelor" ["phd"] (by simp) (by decide)

/-! ### Claim C10 -/

theorem taxonomy_no_hit {jd : String} (h : taxonomyFound jd = [])
    {cat : String} {skills : List String} (hc : (cat, skills) ∈ skill_categories)
    {s : String} (hs : s ∈ skills) :
    containsSub s.data (lowerData jd) = false := by
  unfold taxonomyFound at h
  rw [List.filter_eq_nil_iff] at h
  have h2 := h _ (List.mem_map_of_mem _ hc)
  have h3 : (skills.filter (fun t => containsSub t.data (lowerData jd))).map pyTitle = [] := by
    cases e : (skills.filter (fun t => containsSub t.data (lowerData jd))).map pyTitle with
    | nil => rfl
    | cons x xs => rw [e] at h2; simp at h2
  have h4 := List.map_eq_nil_iff.1 h3
  rw [List.filter_eq_nil_iff] at h4
  exact Bool.eq_false_iff.mpr (h4 s hs)

theorem taxonomy_no_basic {jd : String} (h : taxonomyFound jd = []) :
    ∀ b ∈ basic_skills, containsSub b.data (lowerData jd) = false := by
  intro b hb
  have hmem : ∃ p ∈ skill_categories, b ∈ p.2 := by
    fin_cases hb <;> decide
  rcases hmem with ⟨⟨cat, skills⟩, hp, hbs⟩
  exact taxonomy_no_hit h hp hbs

/-- Claim C10: `extract_job_skills` never emits the `general_skills`
category: it always coincides with the taxonomy pass, because every
fallback basic skill is also a taxonomy phrase, so an empty taxonomy pass
forces an empty fallback pass. -/
theorem claim_C10 (jd : String) :
    extract_job_skills jd = taxonomyFound jd
    ∧ "general_skills" ∉ (extract_job_skills jd).map Prod.fst
    ∧ basic_skills.all (fun b => all_skills.contains b) = true := by
  have h1 : extract_job_skills jd = taxonomyFound jd := by
    by_cases h : taxonomyFound jd = []
    · have hbasic := taxonomy_no_basic h
      have hfil : basic_skills.filter (fun s => containsSub s.data (lowerData jd)) = [] :=
        List.filter_eq_nil_iff.2 (fun b hb => by simp [hbasic b hb])
      simp [extract_job_skills, h, hfil]
    · have hne : (taxonomyFound jd).isEmpty = false := by
        cases e : taxonomyFound jd with
        | nil => exact absurd e h
        | cons a t => simp
      simp [extract_job_skills, hne]
  refine ⟨h1, ?_, by decide⟩
  rw [h1]
  intro hmem
  unfold taxonomyFound at hmem
  rcases List.mem_map.1 hmem with ⟨p, hp, hfst⟩
  have hp2 := (List.mem_filter.1 hp).1
  rcases List.mem_map.1 hp2 with ⟨q, hq, rfl⟩
  have hnames : ∀ q ∈ skill_categories, q.1 ≠ "general_skills" := by decide
  exact hnames q hq hfst

/-! ### Claims C4 and C8 -/

theorem assignRanks_length : ∀ (l : List Candidate) (i : ℕ),
    (assignRanks l i).length = l.length
  | [], _ => rfl
  | c :: t, i => by simp [assignRanks, assignRanks_length t (i + 1)]

theorem assignRanks_map_rank : ∀ (l : List Candidate) (i : ℕ),
    (assignRanks l i).map Candidate.rank = List.range' i l.length
  | [], _ => rfl
  | c :: t, i => by
    simp [assignRanks, List.range', assignRanks_map_rank t (i + 1)]

theorem assignRanks_map_score : ∀ (l : List Candidate) (i : ℕ),
    (assignRanks l i).map (fun c => c.score_data.overall_score)
      = l.map (fun c => c.score_data.overall_score)
  | [], _ => rfl
  | c :: t, i => by simp [assignRanks, assignRanks_map_score t (i + 1)]

theorem assignRanks_map_resume : ∀ (l : List Candidate) (i : ℕ),
    (assignRanks l i).map Candidate.resume_data = l.map Candidate.resume_data
  | [], _ => rfl
  | c :: t, i => by simp [assignRanks, assignRanks_map_resume t (i + 1)]

theorem chain'_assignRanks : ∀ (l : List Candidate) (i : ℕ),
    List.Chain' candGE l → List.Chain' candGE (assignRanks l i)
  | [], _, _ => by simp [assignRanks]
  | [a], i, _ => by simp [assignRanks]
  | a :: b :: u, i, h => by
    rw [List.chain'_cons] at h
    show List.Chain' candGE
      ({ a with rank := i } :: { b with rank := i + 1 } :: assignRanks u (i + 2))
    rw [List.chain'_cons]
    exact ⟨h.1, chain'_assignRanks (b :: u) (i + 1) h.2⟩

theorem mem_assignRanks {c : Candidate} : ∀ {l : List Candidate} {i : ℕ},
    c ∈ assignRanks l i →
    ∃ d ∈ l, c.resume_data = d.resume_data ∧ c.score_data = d.score_data := by
  intro l
  induction l with
  | nil => intro i h; simp [assignRanks] at h
  | cons a t ih =>
    intro i h
    simp only [assignRanks, List.mem_cons] at h
    rcases h with h | h
    · exact ⟨a, List.mem_cons_self a t, by rw [h], by rw [h]⟩
    · rcases ih h with ⟨d, hd, h1, h2⟩
      exact ⟨d, List.mem_cons_of_mem _ hd, h1, h2⟩

/-- Claim C4: the output of `rank_candidates` is sorted by overall score in
descending order (each adjacent pair satisfies `ranked[i] ≥ ranked[i+1]`),
the assigned ranks are exactly `1..N` in output order, and `N` is the
number of non-error candidates. -/
theorem claim_C4 (resumes : List ResumeData) (jd : String) :
    List.Chain' (fun a b => b.score_data.overall_score ≤ a.score_data.overall_score)
      (rank_candidates resumes jd)
    ∧ (rank_candidates resumes jd).map Candidate.rank
        = List.range' 1 (rank_candidates resumes jd).length
    ∧ (rank_candidates resumes jd).length
        = (resumes.filter (fun r => r.error.isNone)).length := by
  simp only [rank_candidates]
  refine ⟨?_, ?_, ?_⟩
  · have h1 := List.sorted_insertionSort candGE
      ((resumes.filter (fun r => r.error.isNone)).map
        (fun r => { resume_data := r,
                    score_data := calculate_overall_score r (extract_job_skills jd),
                    rank := 0 : Candidate }))
    have h2 : List.Chain' candGE (List.insertionSort candGE
        ((resumes.filter (fun r => r.error.isNone)).map
          (fun r => { resume_data := r,
                      score_data := calculate_overall_score r (extract_job_skills jd),
                      rank := 0 : Candidate }))) := h1.chain'
    exact chain'_assignRanks _ 1 h2
  · rw [assignRanks_map_rank, assignRanks_length]
  · rw [assignRanks_length, List.length_insertionSort, List.length_map]

/-- Claim C8: error records are excluded while every non-error candidate is
scored and ranked (the ranked output is a permutation of the scored
non-error records), and an all-error batch yields the empty list rather
than an error. -/
theorem claim_C8 (resumes : List ResumeData) (jd : String) :
    List.Perm ((rank_candidates resumes jd).map Candidate.resume_data)
      (resumes.filter (fun r => r.error.isNone))
    ∧ (∀ c ∈ rank_candidates resumes jd,
        c.resume_data.error = none
        ∧ c.score_data = calculate_overall_score c.resume_data (extract_job_skills jd))
    ∧ ((∀ r ∈ resumes, r.error.isSome = true) → rank_candidates resumes jd = []) := by
  simp only [rank_candidates]
  refine ⟨?_, ?_, ?_⟩
  · rw [assignRanks_map_resume]
    refine ((List.perm_insertionSort candGE _).map Candidate.resume_data).trans ?_
    rw [List.map_map]
    have he : (Candidate.resume_data ∘ (fun r : ResumeData =>
        { resume_data := r,
          score_data := calculate_overall_score r (extract_job_skills jd),
          rank := 0 : Candidate })) = id := by
      funext r
      rfl
    rw [he, List.map_id]
  · intro c hc
    rcases mem_assignRanks hc with ⟨d, hd, h1, h2⟩
    have hd2 : d ∈ (resumes.filter (fun r => r.error.isNone)).map
        (fun r => { resume_data := r,
                    score_data := calculate_overall_score r (extract_job_skills jd),
                    rank := 0 : Candidate }) := by
      simpa using hd
    rcases List.mem_map.1 hd2 with ⟨r, hr, rfl⟩
    have hrn : r.error.isNone = true := (List.mem_filter.1 hr).2
    constructor
    · rw [h1]
      exact Option.isNone_iff_eq_none.mp hrn
    · rw [h2, h1]
  · intro h
    have hfil : resumes.filter (fun r => r.error.isNone) = [] := by
      rw [List.filter_eq_nil_iff]
      intro r hr
      rcases Option.isSome_iff_exists.1 (h r hr) with ⟨v, hv⟩
      simp [hv]
    rw [hfil]
    rfl

/-- Witness for claim C8 at a concrete input. -/
theorem claim_C8_witness :
    rank_candidates [⟨"bad.pdf", some "Could not extract text from file", [], "", []⟩]
      "python" = [] :=
  (claim_C8 [⟨"bad.pdf", some "Could not extract text from file", [], "", []⟩]
    "python").2.2 (by decide)

/-- Witness for claim C9 at a concrete input. -/
theorem claim_C9_witness :
    calculate_skill_match_score ["Python"] ["Python", "Aws"]
      ≤ calculate_skill_match_score (["Python"] ++ ["Aws"]) ["Python", "Aws"] :=
  claim_C9 ["Python"] ["Python", "Aws"] "Aws" (by decide) (by decide) (by decide)

/-! ### Claim C6 -/

theorem matchAt_digits_shape : ∀ (ps : List PatElem) (cs : List Char) (r : List Char),
    PatElem.digits ∈ ps → matchAt ps cs = some r →
    r ≠ [] ∧ r.all Char.isDigit = true := by
  intro ps
  induction ps with
  | nil => intro cs r h hm; simp at h
  | cons e rest ih =>
    intro cs r hmem hm
    cases e with
    | lit l =>
      have hr : PatElem.digits ∈ rest := by
        rcases List.mem_cons.1 hmem with h | h
        · exact absurd h (by simp)
        · exact h
      simp only [matchAt] at hm
      split at hm
      · exact ih _ r hr hm
      · simp at hm
    | optChar c =>
      have hr : PatElem.digits ∈ rest := by
        rcases List.mem_cons.1 hmem with h | h
        · exact absurd h (by simp)
        · exact h
      cases cs with
      | nil => exact ih _ r hr hm
      | cons d t =>
        simp only [matchAt] at hm
        by_cases hdc : (d == c) = true
        · rw [if_pos hdc] at hm
          exact ih _ r hr hm
        · rw [if_neg hdc] at hm
          exact ih _ r hr hm
    | ws =>
      have hr : PatElem.digits ∈ rest := by
        rcases List.mem_cons.1 hmem with h | h
        · exact absurd h (by simp)
        · exact h
      simp only [matchAt] at hm
      exact ih _ r hr hm
    | digits =>
      simp only [matchAt] at hm
      split at hm
      · simp at hm
      · rename_i hrun
        rcases Option.map_eq_some'.1 hm with ⟨a, _, hfa⟩
        constructor
        · intro hnil
          apply hrun
          rw [hfa, hnil]
          rfl
        · rw [← hfa]
          rw [List.all_eq_true]
          intro x hx
          exact List.mem_takeWhile_imp hx

theorem searchPat_shape (p : List PatElem) : ∀ (cs : List Char) (r : List Char),
    PatElem.digits ∈ p → searchPat p cs = some r →
    r ≠ [] ∧ r.all Char.isDigit = true := by
  intro cs
  induction cs with
  | nil =>
    intro r hp h
    simp only [searchPat] at h
    exact matchAt_digits_shape p [] r hp h
  | cons c t ih =>
    intro r hp h
    simp only [searchPat] at h
    cases e : matchAt p (c :: t) with
    | some q =>
      rw [e] at h
      simp only [Option.some.injEq] at h
      subst h
      exact matchAt_digits_shape p (c :: t) q hp e
    | none =>
      rw [e] at h
      exact ih r hp h

theorem firstMatch_shape {cs : List Char} {r : List Char}
    (h : firstMatch experience_patterns cs = some r) :
    r ≠ [] ∧ r.all Char.isDigit = true := by
  simp only [experience_patterns, firstMatch] at h
  cases e1 : searchPat pat1 cs with
  | some q =>
    rw [e1] at h
    simp only [Option.some.injEq] at h
    subst h
    exact searchPat_shape pat1 cs q (by simp [pat1]) e1
  | none =>
    rw [e1] at h
    cases e2 : searchPat pat2 cs with
    | some q =>
      rw [e2] at h
      simp only [Option.some.injEq] at h
      subst h
      exact searchPat_shape pat2 cs q (by simp [pat2]) e2
    | none =>
      rw [e2] at h
      cases e3 : searchPat pat3 cs with
      | some q =>
        rw [e3] at h
        simp only [Option.some.injEq] at h
        subst h
        exact searchPat_shape pat3 cs q (by simp [pat3]) e3
      | none =>
        rw [e3] at h
        simp at h

theorem takeWhile_append_digits : ∀ (l t : List Char), (∀ c ∈ l, c.isDigit = true) →
    (l ++ t).takeWhile Char.isDigit = l ++ t.takeWhile Char.isDigit := by
  intro l t h
  induction l with
  | nil => simp
  | cons c l' ih =>
    have hc : c.isDigit = true := h c (by simp)
    simp only [List.cons_append, List.takeWhile_cons, hc, if_true]
    rw [ih (fun x hx => h x (by simp [hx]))]

theorem firstNumber_of_digits_append {l : List Char} (hne : l ≠ [])
    (hd : l.all Char.isDigit = true) :
    firstNumber (l ++ (" years").data) = some l := by
  cases l with
  | nil => exact absurd rfl hne
  | cons c t =>
    rw [List.all_eq_true] at hd
    have hc : c.isDigit = true := hd c (by simp)
    have e1 : (c :: t) ++ (" years").data = c :: (t ++ (" years").data) := rfl
    rw [e1]
    show (if c.isDigit = true
        then some ((c :: (t ++ (" years").data)).takeWhile Char.isDigit)
        else firstNumber (t ++ (" years").data)) = some (c :: t)
    rw [if_pos hc, ← e1]
    rw [takeWhile_append_digits (c :: t) _ (fun x hx => hd x hx)]
    have e2 : ((" years").data).takeWhile Char.isDigit = [] := rfl
    rw [e2, List.append_nil]

theorem containsSub_append_right (n : List Char) : ∀ (a b : List Char),
    containsSub n b = true → containsSub n (a ++ b) = true := by
  intro a
  induction a with
  | nil => intro b h; simpa using h
  | cons c t ih =>
    intro b h
    have e : (c :: t) ++ b = c :: (t ++ b) := rfl
    rw [e]
    show (isPrefOf n (c :: (t ++ b)) || containsSub n (t ++ b)) = true
    rw [ih b h, Bool.or_true]

theorem contains_years (l : List Char) :
    containsSub ("years").data (lowerData ⟨l ++ (" years").data⟩) = true := by
  have he : lowerData ⟨l ++ (" years").data⟩
      = l.map Char.toLower ++ ((" years").data).map Char.toLower := by
    simp [lowerData]
  rw [he]
  apply containsSub_append_right
  decide

theorem experienceBonus_of_capture {capd : List Char} (hne : capd ≠ [])
    (hd : capd.all Char.isDigit = true) :
    experienceBonus ⟨capd ++ (" years").data⟩ =
      (if 8 ≤ digitVal capd then 15 else if 5 ≤ digitVal capd then 12
        else if 3 ≤ digitVal capd then 8 else if 1 ≤ digitVal capd then 5 else 0) := by
  unfold experienceBonus
  rw [contains_years capd]
  rw [show (⟨capd ++ (" years").data⟩ : String).data = capd ++ (" years").data from rfl]
  rw [firstNumber_of_digits_append hne hd]
  simp

/-- Claim C6: experience extraction applies the three patterns in fixed
priority order on the lowercased text and returns the digit capture of the
first matching pattern (the fixed fallback string when none matches), the
experience bonus is the threshold table on the captured number (with 0 for
the fallback), and a text containing "5 years of experience" captures 5
and gets bonus 12. -/
theorem claim_C6 :
    (∀ (t : String) (r : List Char), searchPat pat1 (lowerData t) = some r →
      extract_experience t = ⟨r ++ (" years").data⟩)
    ∧ (∀ (t : String) (r : List Char), searchPat pat1 (lowerData t) = none →
        searchPat pat2 (lowerData t) = some r →
        extract_experience t = ⟨r ++ (" years").data⟩)
    ∧ (∀ (t : String) (r : List Char), searchPat pat1 (lowerData t) = none →
        searchPat pat2 (lowerData t) = none →
        searchPat pat3 (lowerData t) = some r →
        extract_experience t = ⟨r ++ (" years").data⟩)
    ∧ (∀ t : String, searchPat pat1 (lowerData t) = none →
        searchPat pat2 (lowerData t) = none →
        searchPat pat3 (lowerData t) = none →
        extract_experience t = "Experience not specified"
        ∧ experienceBonus (extract_experience t) = 0)
    ∧ (∀ (t : String) (r : List Char),
        firstMatch experience_patterns (lowerData t) = some r →
        experienceBonus (extract_experience t)
          = (if 8 ≤ digitVal r then 15 else if 5 ≤ digitVal r then 12
              else if 3 ≤ digitVal r then 8 else if 1 ≤ digitVal r then 5 else 0))
    ∧ (extract_experience "Senior developer with 5 years of experience in Python"
        = "5 years"
      ∧ experienceBonus (extract_experience
          "Senior developer with 5 years of experience in Python") = 12) := by
  refine ⟨?_, ?_, ?_, ?_, ?_, by decide, by decide⟩
  · intro t r h
    simp [extract_experience, experience_patterns, firstMatch, h]
  · intro t r h1 h2
    simp [extract_experience, experience_patterns, firstMatch, h1, h2]
  · intro t r h1 h2 h3
    simp [extract_experience, experience_patterns, firstMatch, h1, h2, h3]
  · intro t h1 h2 h3
    constructor
    · simp [extract_experience, experience_patterns, firstMatch, h1, h2, h3]
    · have he : extract_experience t = "Experience not specified" := by
        simp [extract_experience, experience_patterns, firstMatch, h1, h2, h3]
      rw [he]
      decide
  · intro t r h
    have hs := firstMatch_shape h
    have he : extract_experience t = ⟨r ++ (" years").data⟩ := by
      simp [extract_experience, h]
    rw [he]
    exact experienceBonus_of_capture hs.1 hs.2

/-- Witness for claim C6 at a concrete input. -/
theorem claim_C6_witness :
    extract_experience "a 5 years of experience" = ⟨['5'] ++ (" years").data⟩
    ∧ experienceBonus (extract_experience "a 5 years of experience")
        = (if 8 ≤ digitVal ['5'] then 15 else if 5 ≤ digitVal ['5'] then 12
            else if 3 ≤ digitVal ['5'] then 8 else if 1 ≤ digitVal ['5'] then 5 else 0) :=
  ⟨claim_C6.1 "a 5 years of experience" ['5'] (by decide),
   claim_C6.2.2.2.2.1 "a 5 years of experience" ['5'] (by decide)⟩

end ResumeScreening
